import Mathlib

/-!
# Watchdog — verification of the retry transport, notification gate,
# PR-review task orchestration and scheduler stop protocol

Shallow embedding of the watchdog monitoring framework (Go).  Times and
durations are modelled as integers (Go `time.Time` / `time.Duration` are
nanosecond counts); backoff magnitudes, which no claim depends on
numerically, use rationals in place of `float64`.  External collaborators
(the HTTP client, the GitHub API, the notification sink) are modelled as
oracles: functions supplied as parameters that may fail on any call.
-/

namespace Watchdog

namespace Retry

/-- Outcome of one `client.Do(reqClone)` call inside the retry loop:
either a network-level error (`timeout` says whether it satisfies
`net.Error` with `Timeout() == true`), or an HTTP response with a status
code (`resp` non-nil, `err` nil). -/
inductive AttemptOutcome where
  | netErr (timeout : Bool)
  | response (status : Nat)
deriving DecidableEq

/-- `RetryConfig` from the retry transport: max retry attempts, initial
backoff, max backoff, backoff multiplier (the Go durations/float64 are
modelled as rationals; only `maxRetries` affects control flow). -/
structure RetryConfig where
  maxRetries : Nat
  initialBackoff : ℚ
  maxBackoff : ℚ
  backoffMultiplier : ℚ
deriving DecidableEq

/-- `DefaultRetryConfig`: 3 retries, 500ms initial, 10s max, multiplier 2
(durations in nanoseconds). -/
def DefaultRetryConfig : RetryConfig :=
  { maxRetries := 3
    initialBackoff := 500000000
    maxBackoff := 10000000000
    backoffMultiplier := 2 }

/-- `isRetryableError`: a non-nil error is transient iff it is a
`net.Error` with `Timeout() == true`. -/
def isRetryableError : AttemptOutcome → Bool
  | .netErr timeout => timeout
  | .response _ => false

/-- `isRetryableStatusCode`: HTTP 429, 500, 502, 503, 504 are transient. -/
def isRetryableStatusCode (statusCode : Nat) : Bool :=
  statusCode = 429 || statusCode = 500 || statusCode = 502 ||
    statusCode = 503 || statusCode = 504

/-- An attempt outcome the retry loop treats as transient: a retryable
network error, or a response with a retryable status code. -/
def isTransientOutcome : AttemptOutcome → Bool
  | .netErr timeout => timeout
  | .response s => isRetryableStatusCode s

/-- The backoff before the retry that follows attempt `k` (0-indexed):
`min(maxBackoff, initialBackoff * multiplier^k)`, as computed by the Go
code in float64. -/
def backoffAfter (cfg : RetryConfig) (k : Nat) : ℚ :=
  min cfg.maxBackoff (cfg.initialBackoff * cfg.backoffMultiplier ^ k)

/-- What `DoWithRetry` hands back to its caller.

* `cancelled`   — returned `(nil, ctx.Err())`;
* `netFailure`  — returned `(nil, lastErr)` with `lastErr` a network error;
* `ok status bodyDrained` — returned `(resp, nil)`; `bodyDrained` records
  whether the loop had already drained and closed `resp.Body` (which it
  does before every retry decision on a retryable status, including the
  final exhausted attempt);
* `loopExit`    — fell out of the `for` loop (the trailing
  `return resp, lastErr`); unreachable for the fuel used by `DoWithRetry`.
-/
inductive RetryResult where
  | cancelled
  | netFailure
  | ok (status : Nat) (bodyDrained : Bool)
  | loopExit
deriving DecidableEq

/-- The body of `DoWithRetry`'s `for attempt := 0; attempt <= config.MaxRetries`
loop.  `oracle k` is the outcome of the `k`-th `client.Do`;
`cancelledBefore k` is whether `ctx.Done()` is observed at the check that
precedes attempt `k`; `cancelledDuringWait k` is whether the context fires
during the backoff wait that follows attempt `k`.  Returns the result
together with the number of `client.Do` calls issued from the current
point on.  `fuel` bounds the remaining iterations; `DoWithRetry` supplies
`maxRetries + 1`, which is exactly enough. -/
def doWithRetryLoop (cfg : RetryConfig) (oracle : Nat → AttemptOutcome)
    (cancelledBefore cancelledDuringWait : Nat → Bool) :
    Nat → Nat → RetryResult × Nat
  | 0, _ => (.loopExit, 0)
  | fuel + 1, attempt =>
    if cancelledBefore attempt then (.cancelled, 0)
    else
      match oracle attempt with
      | .response s =>
        if ¬ isRetryableStatusCode s then
          -- success path: `lastErr == nil && !isRetryableStatusCode`
          (.ok s false, 1)
        else if cfg.maxRetries ≤ attempt then
          -- retries exhausted with `lastErr == nil`: `return resp, nil`,
          -- the body having been drained and closed for the retry that
          -- never happens
          (.ok s true, 1)
        else if cancelledDuringWait attempt then (.cancelled, 1)
        else
          let r := doWithRetryLoop cfg oracle cancelledBefore
            cancelledDuringWait fuel (attempt + 1)
          (r.1, r.2 + 1)
      | .netErr timeout =>
        if ¬ timeout then
          -- permanent network error: `shouldRetry` stays false
          (.netFailure, 1)
        else if cfg.maxRetries ≤ attempt then (.netFailure, 1)
        else if cancelledDuringWait attempt then (.cancelled, 1)
        else
          let r := doWithRetryLoop cfg oracle cancelledBefore
            cancelledDuringWait fuel (attempt + 1)
          (r.1, r.2 + 1)

/-- `DoWithRetry ctx client req config`: run the retry loop from attempt 0.
The pair is (what the call returns, how many attempts were issued). -/
def DoWithRetry (cfg : RetryConfig) (oracle : Nat → AttemptOutcome)
    (cancelledBefore cancelledDuringWait : Nat → Bool) : RetryResult × Nat :=
  doWithRetryLoop cfg oracle cancelledBefore cancelledDuringWait
    (cfg.maxRetries + 1) 0

end Retry

namespace Gate

/-- The dedup state `lastNotificationTime : map[string]time.Time`, modelled
as a partial function from dedup keys to nanosecond timestamps (a Go map is
exactly a finite partial function; `absence = never notified`). -/
def DedupMap : Type := String → Option Int

/-- The gate read inlined in `Run`:
`lastTime, ok := t.lastNotificationTime[prID]` followed by
`if ok { if time.Since(lastTime) < cooldown { continue } }`.
`true` means the notification may proceed. -/
def shouldNotify (m : DedupMap) (key : String) (cooldown now : Int) : Bool :=
  match m key with
  | none => true
  | some lastTime => !(now - lastTime < cooldown)

/-- `t.lastNotificationTime[prID] = time.Now()` — performed only on the
successful-send branch of `Run`. -/
def recordNotified (m : DedupMap) (key : String) (now : Int) : DedupMap :=
  fun k => if k = key then some now else m k

/-- `minCleanupAge := 7 * 24 * time.Hour` in nanoseconds. -/
def minCleanupAge : Int := 7 * 24 * 3600 * 1000000000

/-- `cleanupThreshold`: the larger of `minCleanupAge` and the configured
cooldown (`if cooldown > minCleanupAge { cleanupThreshold = cooldown }`). -/
def cleanupThreshold (cooldown : Int) : Int :=
  if minCleanupAge < cooldown then cooldown else minCleanupAge

/-- The cleanup sweep at the end of `Run`: delete every entry with
`time.Since(lastTime) > cleanupThreshold`.  Pointwise on the map, which is
faithful to Go's delete-during-range over a map. -/
def cleanup (m : DedupMap) (cooldown now : Int) : DedupMap :=
  fun k =>
    match m k with
    | none => none
    | some lastTime => if cleanupThreshold cooldown < now - lastTime then none else some lastTime

end Gate

namespace PRTask

/-- `api.User` — the PR author (`login`). -/
structure User where
  login : String
deriving DecidableEq

/-- The `pr.Head` reference carrying the head commit `SHA` used for the
CI-status lookups (the struct's declaration is in an api revision outside
`src/`; fields modelled from its uses in `Run`). -/
structure CommitRef where
  sha : String
deriving DecidableEq

/-- `api.PullRequest` with the fields `Run` reads. -/
structure PullRequest where
  number : Nat
  title : String
  user : User
  createdAt : Int
  updatedAt : Int
  draft : Bool
  htmlURL : String
  head : CommitRef
deriving DecidableEq

/-- `config.RepositoryConfig`. -/
structure RepositoryConfig where
  owner : String
  repo : String
  authors : List String
deriving DecidableEq

/-- `config.GitHubConfig` as consumed by `Run`.  `staleDays` is the raw
`stale_days` integer; `notificationCooldown` is the duration that
`GetNotificationCooldown()` yields after parsing the config string
(default 24h) — the string parsing itself is outside these claims. -/
structure GitHubConfig where
  repositories : List RepositoryConfig
  staleDays : Int
  notificationCooldown : Int
deriving DecidableEq

/-- `GetStaleDays`: 4 when `stale_days` is unset or non-positive. -/
def GetStaleDays (cfg : GitHubConfig) : Int :=
  if cfg.staleDays ≤ 0 then 4 else cfg.staleDays

/-- `GetNotificationCooldown` (post-parsing). -/
def GetNotificationCooldown (cfg : GitHubConfig) : Int :=
  cfg.notificationCooldown

/-- One hour in nanoseconds (`time.Hour`). -/
def hourNs : Int := 3600 * 1000000000

/-- One day in nanoseconds (`24 * time.Hour`). -/
def dayNs : Int := 24 * hourNs

/-- `api.CommitStatus` (declaration lives in an api revision outside
`src/`; `Run` reads only `State`). -/
structure CommitStatus where
  state : String
deriving DecidableEq

/-- One element of `CheckSuitesResponse.CheckSuites`; `Run` reads only
`Conclusion`. -/
structure CheckSuite where
  conclusion : String
deriving DecidableEq

/-- `api.CheckSuitesResponse`. -/
structure CheckSuitesResponse where
  checkSuites : List CheckSuite
deriving DecidableEq

/-- The `api.GitHubClient` interface as an oracle.  `getOpenPullRequests`
returns `none` when `err != nil`.  The two status lookups return Go's
`(pointer, error)` pair: the `Bool` is `err != nil`; the pointer may be
nil independently. -/
structure GitHubClient where
  getOpenPullRequests : String → String → Option (List PullRequest)
  getCommitStatus : String → String → String → Option CommitStatus × Bool
  getCheckSuites : String → String → String → Option CheckSuitesResponse × Bool

/-- The collaborators `Run` uses: the API client, the notification sink
(`SendNotification` returns `true` iff `err == nil`), and the wall clock
(`time.Now()` / `time.Since`, one timestamp for the run). -/
structure TaskEnv where
  client : GitHubClient
  sendNotification : String → String → Bool
  now : Int

/-- A send attempted through the notifier: dedup key, subject, message and
whether the sink reported success. -/
structure SentNote where
  key : String
  subject : String
  message : String
  ok : Bool
deriving DecidableEq

/-- `strings.EqualFold` (case-insensitive equality; simple folding). -/
def equalFold (s t : String) : Bool :=
  s.toLower == t.toLower

/-- The commit-status half of the `isFailure` combination:
`commitStatus != nil && commitStatus.State ∈ {"failure", "error"}`. -/
def commitStatusFailed : Option CommitStatus → Bool
  | some cs => cs.state == "failure" || cs.state == "error"
  | none => false

/-- The check-suites half: some suite concluded
`failure`/`timed_out`/`cancelled`. -/
def checkSuitesFailed : Option CheckSuitesResponse → Bool
  | some r => r.checkSuites.any fun s =>
      s.conclusion == "failure" || s.conclusion == "timed_out" || s.conclusion == "cancelled"
  | none => false

/-- The CI decoration appended to the alert body when `isFailure`. -/
def ciFailingMsg : String := " (CI: Failing ❌)"

/-- Base-10 digit extraction, most significant first, with enough fuel to
terminate structurally (`[]` for 0). -/
def decimalReprAux : Nat → Nat → List Char
  | 0, _ => []
  | fuel + 1, n =>
    if n = 0 then []
    else decimalReprAux fuel (n / 10) ++ [Nat.digitChar (n % 10)]

/-- Decimal rendering of the `%d` verb (the digits of `n` in base 10,
most significant first; `"0"` for 0). -/
def decimalRepr (n : Nat) : List Char :=
  if n = 0 then ['0'] else decimalReprAux (n + 1) n

/-- The dedup key `fmt.Sprintf("%s/%s#%d", owner, repo, pr.Number)`. -/
def prKey (owner repo : String) (number : Nat) : String :=
  owner ++ "/" ++ repo ++ "#" ++ String.mk (decimalRepr number)

/-- Proof helper: the numeric value of a decimal digit character. -/
def charToDigit (c : Char) : Nat := c.toNat - 48

/-- Proof helper: decode a most-significant-first decimal digit string
(left inverse of `decimalRepr`). -/
def decodeDecimal (l : List Char) : Nat :=
  Nat.ofDigits 10 ((l.map charToDigit).reverse)

/-- The notification body built by `Run` (the `%s` of the RFC1123-formatted
`UpdatedAt` is abstracted to the decimal nanosecond timestamp; its exact
human formatting plays no role in any claim). -/
def prMessage (pr : PullRequest) (rc : RepositoryConfig) (ciMsg : String) : String :=
  "PR #" ++ String.mk (decimalRepr pr.number) ++ " in " ++ rc.owner ++ "/" ++ rc.repo ++
    " by " ++ pr.user.login ++ " is pending review." ++ ciMsg ++
    "\nLast updated: " ++ toString pr.updatedAt ++ "\nLink: " ++ pr.htmlURL

/-- The tail of the loop body once a notification is due: the send
(`ok` is the sink's verdict), followed — on success only — by the
`recordNotified` write that starts the cooldown. -/
def notifyAndRecord (st : Gate.DedupMap) (now : Int) (key subject message : String)
    (ok : Bool) : Gate.DedupMap × List SentNote :=
  (if ok then Gate.recordNotified st key now else st, [⟨key, subject, message, ok⟩])

/-- The body of the inner `for _, pr := range prs` loop of `Run`: filters
(draft, author allow-list, staleness), the dedup gate, the CI decoration,
the send, and — only on send success — the `recordNotified` write. -/
def processPR (cfg : GitHubConfig) (env : TaskEnv) (rc : RepositoryConfig)
    (st : Gate.DedupMap) (pr : PullRequest) : Gate.DedupMap × List SentNote :=
  if pr.draft then (st, [])
  else if 0 < rc.authors.length && !(rc.authors.any fun a => equalFold pr.user.login a) then
    (st, [])
  else if env.now - pr.updatedAt < GetStaleDays cfg * dayNs then (st, [])
  else
    let prID := prKey rc.owner rc.repo pr.number
    if !(Gate.shouldNotify st prID (GetNotificationCooldown cfg) env.now) then (st, [])
    else
      let subject := "Stale PR: " ++ pr.title
      let commitStatus := env.client.getCommitStatus rc.owner rc.repo pr.head.sha
      let checkSuites := env.client.getCheckSuites rc.owner rc.repo pr.head.sha
      let isFailure := commitStatusFailed commitStatus.1 || checkSuitesFailed checkSuites.1
      let ciMsg := if isFailure then ciFailingMsg else ""
      let message := prMessage pr rc ciMsg
      notifyAndRecord st env.now prID subject message (env.sendNotification subject message)

/-- The inner loop over the fetched PR list. -/
def processPRList (cfg : GitHubConfig) (env : TaskEnv) (rc : RepositoryConfig) :
    Gate.DedupMap → List PullRequest → Gate.DedupMap × List SentNote
  | st, [] => (st, [])
  | st, pr :: rest =>
    let r := processPR cfg env rc st pr
    let r' := processPRList cfg env rc r.1 rest
    (r'.1, r.2 ++ r'.2)

/-- One iteration of the outer `for _, repoConfig := range t.config.Repositories`
loop: fetch the open PRs; on error, log and `continue`. -/
def processRepo (cfg : GitHubConfig) (env : TaskEnv) (st : Gate.DedupMap)
    (rc : RepositoryConfig) : Gate.DedupMap × List SentNote :=
  match env.client.getOpenPullRequests rc.owner rc.repo with
  | none => (st, [])
  | some prs => processPRList cfg env rc st prs

/-- The outer loop, also recording which repositories were fetched (every
one, in order, regardless of per-repo failures). -/
def processRepos (cfg : GitHubConfig) (env : TaskEnv) :
    Gate.DedupMap → List RepositoryConfig →
      Gate.DedupMap × List SentNote × List (String × String)
  | st, [] => (st, [], [])
  | st, rc :: rest =>
    let r := processRepo cfg env st rc
    let r' := processRepos cfg env r.1 rest
    (r'.1, r.2 ++ r'.2.1, (rc.owner, rc.repo) :: r'.2.2)

/-- Everything observable about one `Run` invocation: the dedup state after
the final cleanup sweep, the sends attempted, the repositories fetched, and
the error value `Run` returns to the scheduler. -/
structure RunOutcome where
  state : Gate.DedupMap
  sends : List SentNote
  fetched : List (String × String)
  result : Option String

/-- `PRReviewCheckTask.Run`: iterate the repositories, run the cleanup
sweep, `return nil`. -/
def Run (cfg : GitHubConfig) (env : TaskEnv) (st : Gate.DedupMap) : RunOutcome :=
  let r := processRepos cfg env st cfg.repositories
  { state := Gate.cleanup r.1 (GetNotificationCooldown cfg) env.now
    sends := r.2.1
    fetched := r.2.2
    result := none }

/-- Fixture: a ready, long-stale pull request by `alice`. -/
def examplePR : PullRequest :=
  { number := 1, title := "title", user := ⟨"alice"⟩, createdAt := 0, updatedAt := 0
    draft := false, htmlURL := "http", head := ⟨"sha"⟩ }

/-- Fixture: one repository, default-ish 4 stale days, a tiny cooldown. -/
def exampleCfg : GitHubConfig :=
  { repositories := [⟨"octo", "hello", []⟩], staleDays := 4, notificationCooldown := 100 }

/-- Fixture: a client whose PR fetch succeeds with `examplePR` and whose
CI-status lookups both fail. -/
def exampleClient : GitHubClient :=
  { getOpenPullRequests := fun _ _ => some [examplePR]
    getCommitStatus := fun _ _ _ => (none, true)
    getCheckSuites := fun _ _ _ => (none, true) }

/-- Fixture: clock at 400000000000000 ns (past the 4-day staleness bound
for `examplePR`), with a sink that always fails. -/
def exampleEnvFailSend : TaskEnv :=
  { client := exampleClient, sendNotification := fun _ _ => false, now := 400000000000000 }

end PRTask

namespace Telnyx

/-- The mutable fields of `TelnyxBalanceCheckTask`.  `lastNotificationTime`
is `none` for Go's zero `time.Time` (`IsZero()`); the balance is a float64,
modelled as a rational. -/
structure TelnyxState where
  lastNotificationTime : Option Int
  lastObservedBalance : ℚ
  hasRunBefore : Bool
deriving DecidableEq

/-- What one `TelnyxBalanceCheckTask.Run` produced: the state after the
call, whether a send was attempted (and its sink verdict), and the error
returned to the scheduler. -/
structure TelnyxOutcome where
  state : TelnyxState
  sendAttempt : Option Bool
  result : Option String
deriving DecidableEq

/-- `TelnyxBalanceCheckTask.Run`: fetch the balance (`none` models
`err != nil`), compare against the threshold, consult the cooldown, send,
and record the notification time only after a successful send. -/
def telnyxRun (threshold : ℚ) (cooldown : Int) (balanceResult : Option ℚ)
    (send : Bool) (now : Int) (st : TelnyxState) : TelnyxOutcome :=
  match balanceResult with
  | none => { state := st, sendAttempt := none, result := some "failed to get balance" }
  | some balance =>
    let st₁ : TelnyxState :=
      if !st.hasRunBefore || balance ≠ st.lastObservedBalance then
        { st with lastObservedBalance := balance, hasRunBefore := true }
      else st
    if balance < threshold then
      let inCooldown :=
        match st₁.lastNotificationTime with
        | none => false
        | some lastTime => now - lastTime < cooldown
      if inCooldown then { state := st₁, sendAttempt := none, result := none }
      else if send then
        { state := { st₁ with lastNotificationTime := some now }
          sendAttempt := some true
          result := none }
      else
        { state := st₁, sendAttempt := some false
          result := some "failed to send notification" }
    else { state := st₁, sendAttempt := none, result := none }

end Telnyx

namespace SchedStop

/-- Where one task's goroutine loop is: blocked in its `select` (idle),
inside `task.task.Run()` (running), or returned after receiving on its
stop channel (terminated). -/
inductive Phase where
  | idle
  | running
  | terminated
deriving DecidableEq

/-- The scheduler during `Stop()`: the phase of every task loop, and how
many stop channels the `for` loop in `Stop` has already completed an
(unbuffered, rendezvous) send on. -/
structure StopState where
  phases : List Phase
  stopIdx : Nat
deriving DecidableEq

/-- Interleaved execution of the task goroutines and the `Stop` caller.

* `tickStart`: an idle loop's ticker fires and the `select` picks it —
  possible even while `Stop` is waiting to send, since a Go `select` with
  several ready cases chooses among them;
* `tickFinish`: a running `task.task.Run()` returns and the loop re-enters
  its `select`;
* `stopSignal`: the rendezvous on `scheduledTask.stop <- true` with the
  loop it is addressed to; it requires that loop to be at its `select`,
  and on completion that loop returns.
-/
inductive Step : StopState → StopState → Prop
  | tickStart (s : StopState) (i : Nat) (h : s.phases[i]? = some .idle) :
      Step s ⟨s.phases.set i .running, s.stopIdx⟩
  | tickFinish (s : StopState) (i : Nat) (h : s.phases[i]? = some .running) :
      Step s ⟨s.phases.set i .idle, s.stopIdx⟩
  | stopSignal (s : StopState) (h : s.phases[s.stopIdx]? = some .idle) :
      Step s ⟨s.phases.set s.stopIdx .terminated, s.stopIdx + 1⟩

/-- Whether the rendezvous `Stop` is currently attempting can complete:
the loop it addresses must be blocked in its `select`. -/
def stopSignalEnabled (s : StopState) : Bool :=
  s.phases[s.stopIdx]? == some .idle

/-- `Stop()` has returned: its `for` loop completed a send to every task. -/
def stopReturned (s : StopState) : Prop :=
  s.stopIdx = s.phases.length

/-- The per-tick error handling in `Scheduler.Start`'s loop:
`err := task.task.Run(); if err != nil { fmt.Printf(...) }` — a log line
is emitted exactly when the task returned a non-nil error. -/
def tickLogsError (taskResult : Option String) : Bool :=
  taskResult.isSome

/-- The invariant `Stop` maintains: every loop it has signalled has
terminated. -/
def signalledTerminated (s : StopState) : Prop :=
  ∀ i, i < s.stopIdx → s.phases[i]? = some .terminated

end SchedStop

end Watchdog

-- ## Theorems

namespace Watchdog

namespace Retry

/-- When every attempt's outcome is transient and the context never fires,
the loop started at `attempt` with fuel `maxRetries + 1 - attempt` issues
exactly `fuel` further attempts. -/
theorem loop_count_all_transient (cfg : RetryConfig) (oracle : Nat → AttemptOutcome)
    (h : ∀ k, isTransientOutcome (oracle k) = true) :
    ∀ fuel attempt, attempt + fuel = cfg.maxRetries + 1 →
      (doWithRetryLoop cfg oracle (fun _ => false) (fun _ => false) fuel attempt).2 = fuel := by
  intro fuel
  induction fuel with
  | zero => intro attempt _; rfl
  | succ fuel ih =>
    intro attempt hsum
    have htr := h attempt
    by_cases hf : fuel = 0
    · subst hf
      have hle : cfg.maxRetries ≤ attempt := by omega
      cases ho : oracle attempt with
      | response s =>
        rw [ho] at htr
        simp only [isTransientOutcome] at htr
        simp [doWithRetryLoop, ho, htr, hle]
      | netErr t =>
        rw [ho] at htr
        simp only [isTransientOutcome] at htr
        subst htr
        simp [doWithRetryLoop, ho, hle]
    · have hlt : ¬ cfg.maxRetries ≤ attempt := by omega
      have hih := ih (attempt + 1) (by omega)
      cases ho : oracle attempt with
      | response s =>
        rw [ho] at htr
        simp only [isTransientOutcome] at htr
        simp [doWithRetryLoop, ho, htr, hlt, hih]
      | netErr t =>
        rw [ho] at htr
        simp only [isTransientOutcome] at htr
        subst htr
        simp [doWithRetryLoop, ho, hlt, hih]

/-- When every outcome is transient and the context fires during the
backoff that follows attempt `j` (and not during an earlier backoff), the
loop returns the cancellation error having issued attempts
`attempt, …, j` only. -/
theorem loop_cancel_during_wait (cfg : RetryConfig) (oracle : Nat → AttemptOutcome)
    (cw : Nat → Bool) (h : ∀ k, isTransientOutcome (oracle k) = true)
    (j : Nat) (hj : j < cfg.maxRetries) (hcw : cw j = true)
    (hcwlt : ∀ k, k < j → cw k = false) :
    ∀ fuel attempt, attempt + fuel = cfg.maxRetries + 1 → attempt ≤ j →
      doWithRetryLoop cfg oracle (fun _ => false) cw fuel attempt
        = (.cancelled, j + 1 - attempt) := by
  intro fuel
  induction fuel with
  | zero => intro attempt hsum hle; omega
  | succ fuel ih =>
    intro attempt hsum hle
    have htr := h attempt
    have hlt : ¬ cfg.maxRetries ≤ attempt := by omega
    by_cases hej : attempt = j
    · have hcwa : cw attempt = true := by rw [hej]; exact hcw
      have hc : j + 1 - attempt = 1 := by omega
      rw [hc]
      cases ho : oracle attempt with
      | response s =>
        rw [ho] at htr
        simp only [isTransientOutcome] at htr
        simp [doWithRetryLoop, ho, htr, hlt, hcwa]
      | netErr t =>
        rw [ho] at htr
        simp only [isTransientOutcome] at htr
        subst htr
        simp [doWithRetryLoop, ho, hlt, hcwa]
    · have hklt : attempt < j := by omega
      have hcwa := hcwlt attempt hklt
      have hih := ih (attempt + 1) (by omega) (by omega)
      have hc : j + 1 - attempt = (j + 1 - (attempt + 1)) + 1 := by omega
      rw [hc]
      cases ho : oracle attempt with
      | response s =>
        rw [ho] at htr
        simp only [isTransientOutcome] at htr
        simp [doWithRetryLoop, ho, htr, hlt, hcwa, hih]
      | netErr t =>
        rw [ho] at htr
        simp only [isTransientOutcome] at htr
        subst htr
        simp [doWithRetryLoop, ho, hlt, hcwa, hih]

/-- C6: `DoWithRetry` issues exactly `maxRetries + 1` total attempts when
every attempt fails transiently; exactly 1 attempt when the first attempt
fails permanently (non-retryable status such as 404, or a non-timeout
network error); and if the cancellation signal fires while waiting out the
backoff that follows attempt `j`, it returns the cancellation error
immediately, without completing the wait and without issuing another
attempt (total attempts `j + 1`). -/
theorem DoWithRetry_attempt_counts (cfg : RetryConfig) (oracle : Nat → AttemptOutcome)
    (cw : Nat → Bool) (j : Nat) :
    ((∀ k, isTransientOutcome (oracle k) = true) →
      (DoWithRetry cfg oracle (fun _ => false) (fun _ => false)).2 = cfg.maxRetries + 1)
    ∧ (isTransientOutcome (oracle 0) = false →
      (DoWithRetry cfg oracle (fun _ => false) cw).2 = 1)
    ∧ ((∀ k, isTransientOutcome (oracle k) = true) → j < cfg.maxRetries →
      cw j = true → (∀ k, k < j → cw k = false) →
      DoWithRetry cfg oracle (fun _ => false) cw = (.cancelled, j + 1)) := by
  refine ⟨fun h => ?_, fun h => ?_, fun h hj hcw hcwlt => ?_⟩
  · exact loop_count_all_transient cfg oracle h (cfg.maxRetries + 1) 0 (by omega)
  · unfold DoWithRetry
    cases ho : oracle 0 with
    | response s =>
      rw [ho] at h
      simp only [isTransientOutcome] at h
      simp [doWithRetryLoop, ho, h]
    | netErr t =>
      rw [ho] at h
      simp only [isTransientOutcome] at h
      subst h
      simp [doWithRetryLoop, ho]
  · have hthis := loop_cancel_during_wait cfg oracle cw h j hj hcw hcwlt
      (cfg.maxRetries + 1) 0 (by omega) (by omega)
    unfold DoWithRetry
    rw [hthis]
    simp

/-- Witness for C6 at concrete inputs: an always-500 oracle with the
default config (3 retries) issues 4 attempts; a first-attempt 404 issues
1; cancellation during the backoff after attempt 1 yields the cancellation
error after 2 attempts. -/
theorem DoWithRetry_attempt_counts_witness :
    (DoWithRetry DefaultRetryConfig (fun _ => .response 500) (fun _ => false) (fun _ => false)).2 = 4
    ∧ (DoWithRetry DefaultRetryConfig (fun _ => .response 404) (fun _ => false) (fun _ => false)).2 = 1
    ∧ DoWithRetry DefaultRetryConfig (fun _ => .response 500) (fun _ => false)
        (fun k => decide (k = 1)) = (.cancelled, 2) := by
  refine ⟨?_, ?_, ?_⟩
  · exact (DoWithRetry_attempt_counts DefaultRetryConfig (fun _ => .response 500)
      (fun _ => false) 0).1 (fun _ => rfl)
  · exact (DoWithRetry_attempt_counts DefaultRetryConfig (fun _ => .response 404)
      (fun _ => false) 0).2.1 rfl
  · exact (DoWithRetry_attempt_counts DefaultRetryConfig (fun _ => .response 500)
      (fun k => decide (k = 1)) 1).2.2 (fun _ => rfl) (by decide) (by decide)
      (fun k hk => by
        have hk0 : k = 0 := by omega
        subst hk0
        rfl)

/-- C1 (divergence): with the default config and a server that answers
HTTP 500 to every attempt (no network error, no cancellation),
`DoWithRetry` exhausts its 4 attempts and then returns `(resp, nil)` — a
nil error together with the last 500 response whose body has already been
drained and closed — not an error describing the last non-2xx status, as
both the claim and the function's own doc comment ("An error if all
retries are exhausted") state. -/
theorem DoWithRetry_exhausted_transient_returns_nil_error :
    DoWithRetry DefaultRetryConfig (fun _ => .response 500) (fun _ => false) (fun _ => false)
      = (.ok 500 true, 4) := rfl

end Retry

namespace Gate

/-- `cleanupThreshold` is `max(cooldown, minCleanupAge)`. -/
theorem cleanupThreshold_eq_max (cooldown : Int) :
    cleanupThreshold cooldown = max cooldown minCleanupAge := by
  rw [max_def]
  simp only [cleanupThreshold]
  split_ifs <;> omega

/-- The sweep leaves an absent key absent. -/
theorem cleanup_none (m : DedupMap) (cooldown now : Int) (k : String) (h : m k = none) :
    cleanup m cooldown now k = none := by
  unfold cleanup
  rw [h]

/-- The sweep on a present key: delete exactly when the age exceeds the
threshold. -/
theorem cleanup_some (m : DedupMap) (cooldown now : Int) (k : String) (t0 : Int)
    (h : m k = some t0) :
    cleanup m cooldown now k =
      if cleanupThreshold cooldown < now - t0 then none else some t0 := by
  unfold cleanup
  rw [h]

/-- C3: the gate permits a key that has never been recorded; for a
recorded key it permits exactly when `now - lastRecorded ≥ cooldown`
(false otherwise); and immediately after `recordNotified key now` a
re-query at time `t` is permitted exactly when `t ≥ now + cooldown` —
so it is refused strictly before `now + cooldown` and permitted from
`now + cooldown` on. -/
theorem shouldNotify_correct (m : DedupMap) (key : String) (cooldown now t : Int) :
    (m key = none → shouldNotify m key cooldown now = true)
    ∧ (∀ lastTime, m key = some lastTime →
        (shouldNotify m key cooldown now = true ↔ cooldown ≤ now - lastTime))
    ∧ (shouldNotify (recordNotified m key now) key cooldown t = true ↔ now + cooldown ≤ t) := by
  refine ⟨fun h => ?_, fun lastTime h => ?_, ?_⟩
  · simp [shouldNotify, h]
  · simp only [shouldNotify, h]
    simp
  · simp only [shouldNotify, recordNotified, if_pos rfl]
    simp
    omega

/-- Witness for C3 on concrete inputs: an empty map permits; a key
recorded at 100 under cooldown 50 is permitted at 160; after recording at
100 it is refused at 149 and permitted at exactly 150. -/
theorem shouldNotify_correct_witness :
    shouldNotify (fun _ => none) "o/r#1" 50 100 = true
    ∧ shouldNotify (fun k => if k = "o/r#1" then some 100 else none) "o/r#1" 50 160 = true
    ∧ shouldNotify (recordNotified (fun _ => none) "o/r#1" 100) "o/r#1" 50 149 = false
    ∧ shouldNotify (recordNotified (fun _ => none) "o/r#1" 100) "o/r#1" 50 150 = true := by
  refine ⟨?_, ?_, ?_, ?_⟩
  · exact (shouldNotify_correct (fun _ => none) "o/r#1" 50 100 0).1 rfl
  · exact ((shouldNotify_correct (fun k => if k = "o/r#1" then some 100 else none)
      "o/r#1" 50 160 0).2.1 100 rfl).mpr (by decide)
  · have h := (shouldNotify_correct (fun _ => none) "o/r#1" 50 100 149).2.2
    cases hb : shouldNotify (recordNotified (fun _ => none) "o/r#1" 100) "o/r#1" 50 149 with
    | false => rfl
    | true => exact absurd (h.mp hb) (by decide)
  · exact (shouldNotify_correct (fun _ => none) "o/r#1" 50 100 150).2.2.mpr (by decide)

/-- C5: the sweep keeps exactly the entries whose age is at most
`max(cooldown, minCleanupAge)` (removes exactly those whose age exceeds
it); an entry aged `minCleanupAge + ε` (ε > 0) is removed whenever the
cooldown does not exceed the 7-day floor; and an entry aged `cooldown / 2`
is preserved for every non-negative cooldown — in particular even when
`cooldown < minCleanupAge`. -/
theorem cleanup_correct (m : DedupMap) (cooldown now : Int) (key : String) (lastTime ε : Int) :
    (cleanup m cooldown now key = some lastTime ↔
      m key = some lastTime ∧ now - lastTime ≤ max cooldown minCleanupAge)
    ∧ (cooldown ≤ minCleanupAge → 0 < ε → m key = some (now - (minCleanupAge + ε)) →
        cleanup m cooldown now key = none)
    ∧ (0 ≤ cooldown → m key = some (now - cooldown / 2) →
        cleanup m cooldown now key = some (now - cooldown / 2)) := by
  refine ⟨?_, fun hc hε h => ?_, fun hc h => ?_⟩
  · cases hm : m key with
    | none =>
      rw [cleanup_none m cooldown now key hm]
      simp
    | some t0 =>
      rw [cleanup_some m cooldown now key t0 hm, cleanupThreshold_eq_max]
      constructor
      · intro h
        split_ifs at h with hgt
        cases h
        exact ⟨rfl, by omega⟩
      · rintro ⟨h1, h2⟩
        cases h1
        rw [if_neg (by omega)]
  · rw [cleanup_some m cooldown now key _ h, cleanupThreshold_eq_max]
    have h1 : cooldown ⊔ minCleanupAge ≤ minCleanupAge := sup_le hc le_rfl
    rw [if_pos (by omega)]
  · rw [cleanup_some m cooldown now key _ h, cleanupThreshold_eq_max]
    have h1 : cooldown ≤ cooldown ⊔ minCleanupAge := le_sup_left
    rw [if_neg (by omega)]

/-- The sweep either keeps a key's entry unchanged or deletes it; it never
rewrites a timestamp. -/
theorem cleanup_pointwise (m : DedupMap) (cooldown now : Int) (k : String) :
    cleanup m cooldown now k = m k ∨ cleanup m cooldown now k = none := by
  cases hm : m k with
  | none => exact Or.inr (cleanup_none m cooldown now k hm)
  | some t0 =>
    rw [cleanup_some m cooldown now k t0 hm]
    split_ifs
    · exact Or.inr rfl
    · exact Or.inl rfl

/-- An entry surviving the sweep was present, with the same timestamp. -/
theorem cleanup_some_implies (m : DedupMap) (cooldown now : Int) (k : String) (t : Int)
    (h : cleanup m cooldown now k = some t) : m k = some t := by
  rcases cleanup_pointwise m cooldown now k with hp | hp
  · rw [← hp]; exact h
  · rw [hp] at h; exact absurd h (by simp)

/-- Witness for C5 on concrete inputs (nanoseconds; the floor is 7 days =
604800000000000 ns, the cooldown 1 hour = 3600000000000 ns): with `now` at
10 days, an entry exactly 7 days + 1 ns old is removed, while an entry
aged half the cooldown is kept. -/
theorem cleanup_correct_witness :
    cleanup (fun _ => some (864000000000000 - (604800000000000 + 1))) 3600000000000
      864000000000000 "o/r#1" = none
    ∧ cleanup (fun _ => some (864000000000000 - 1800000000000)) 3600000000000
      864000000000000 "o/r#1" = some (864000000000000 - 1800000000000) := by
  constructor
  · exact (cleanup_correct (fun _ => some (864000000000000 - (604800000000000 + 1)))
      3600000000000 864000000000000 "o/r#1" 0 1).2.1 (by decide) (by decide) rfl
  · exact (cleanup_correct (fun _ => some (864000000000000 - 1800000000000))
      3600000000000 864000000000000 "o/r#1" 0 0).2.2 (by decide) (by norm_num)

end Gate

namespace Telnyx

/-- After one balance-task run, `lastNotificationTime` is either exactly
what it was, or it is the run clock and the sink confirmed the send. -/
theorem telnyxRun_lastNotification (threshold : ℚ) (cooldown : Int)
    (balanceResult : Option ℚ) (send : Bool) (now : Int) (tst : TelnyxState) :
    (telnyxRun threshold cooldown balanceResult send now tst).state.lastNotificationTime
        = tst.lastNotificationTime
    ∨ ((telnyxRun threshold cooldown balanceResult send now tst).state.lastNotificationTime
        = some now ∧ send = true) := by
  cases balanceResult with
  | none => exact Or.inl rfl
  | some balance =>
    simp only [telnyxRun]
    split_ifs <;> first
      | exact Or.inl rfl
      | exact Or.inr ⟨rfl, by assumption⟩

end Telnyx

namespace PRTask

/-- With fuel at least `n`, the digit extractor computes the base-10
digits of `n`, most significant first. -/
theorem decimalReprAux_eq (fuel : Nat) :
    ∀ n, n ≤ fuel → decimalReprAux fuel n = ((Nat.digits 10 n).map Nat.digitChar).reverse := by
  induction fuel with
  | zero =>
    intro n hn
    have h0 : n = 0 := by omega
    subst h0
    simp [decimalReprAux]
  | succ fuel ih =>
    intro n hn
    by_cases h0 : n = 0
    · subst h0
      simp [decimalReprAux]
    · rw [Nat.digits_def' (b := 10) (by norm_num) (Nat.pos_of_ne_zero h0)]
      simp only [decimalReprAux, if_neg h0, List.map_cons, List.reverse_cons]
      rw [ih (n / 10) (by omega)]

/-- `decodeDecimal` is a left inverse of `decimalRepr`. -/
theorem decodeDecimal_decimalRepr (n : Nat) : decodeDecimal (decimalRepr n) = n := by
  by_cases h0 : n = 0
  · subst h0
    decide
  · rw [decimalRepr, if_neg h0, decimalReprAux_eq (n + 1) n (Nat.le_succ n)]
    unfold decodeDecimal
    rw [List.map_reverse, List.reverse_reverse, List.map_map]
    have hmap : (Nat.digits 10 n).map (charToDigit ∘ Nat.digitChar) = Nat.digits 10 n := by
      have hcongr : ∀ d ∈ Nat.digits 10 n, (charToDigit ∘ Nat.digitChar) d = id d := by
        intro d hd
        have hlt : d < 10 := Nat.digits_lt_base (by norm_num) hd
        have hall : ∀ d, d < 10 → charToDigit (Nat.digitChar d) = d := by decide
        exact hall d hlt
      rw [List.map_congr_left hcongr, List.map_id]
    rw [hmap, Nat.ofDigits_digits]

/-- `decimalRepr` is injective. -/
theorem decimalRepr_inj {m n : Nat} (h : decimalRepr m = decimalRepr n) : m = n := by
  rw [← decodeDecimal_decimalRepr m, h, decodeDecimal_decimalRepr]

/-- Every character of a decimal rendering is a digit, hence neither the
`/` nor the `#` separator of the dedup-key format. -/
theorem decimalRepr_chars (n : Nat) : ∀ c ∈ decimalRepr n, c ≠ '/' ∧ c ≠ '#' := by
  intro c hc
  by_cases h0 : n = 0
  · subst h0
    simp [decimalRepr] at hc
    subst hc
    decide
  · rw [decimalRepr, if_neg h0, decimalReprAux_eq (n + 1) n (Nat.le_succ n)] at hc
    rw [List.mem_reverse, List.mem_map] at hc
    obtain ⟨d, hd, rfl⟩ := hc
    have hlt : d < 10 := Nat.digits_lt_base (by norm_num) hd
    have hall : ∀ d, d < 10 → Nat.digitChar d ≠ '/' ∧ Nat.digitChar d ≠ '#' := by decide
    exact hall d hlt

/-- Splitting a list at a separator that occurs in neither prefix is
unambiguous. -/
theorem append_sep_inj {α : Type} (c : α) :
    ∀ (a1 a2 b1 b2 : List α), c ∉ a1 → c ∉ a2 →
      a1 ++ c :: b1 = a2 ++ c :: b2 → a1 = a2 ∧ b1 = b2 := by
  intro a1
  induction a1 with
  | nil =>
    intro a2 b1 b2 _ h2 h
    cases a2 with
    | nil => simpa using h
    | cons x xs =>
      simp only [List.nil_append, List.cons_append, List.cons.injEq] at h
      exact absurd (h.1 ▸ List.mem_cons_self x xs) h2
  | cons x xs ih =>
    intro a2 b1 b2 h1 h2 h
    cases a2 with
    | nil =>
      simp only [List.cons_append, List.nil_append, List.cons.injEq] at h
      exact absurd (h.1 ▸ List.mem_cons_self x xs) h1
    | cons y ys =>
      simp only [List.cons_append, List.cons.injEq] at h
      obtain ⟨ha, hb⟩ := ih ys b1 b2 (fun hm => h1 (List.mem_cons_of_mem x hm))
        (fun hm => h2 (List.mem_cons_of_mem y hm)) h.2
      exact ⟨by rw [h.1, ha], hb⟩

/-- The character list underlying a dedup key. -/
theorem prKey_data (o r : String) (n : Nat) :
    (prKey o r n).data = o.data ++ '/' :: (r.data ++ '#' :: decimalRepr n) := by
  show (o ++ "/" ++ r ++ "#" ++ String.mk (decimalRepr n)).data = _
  simp only [String.data_append, List.append_assoc]
  rfl

/-- C2 (amended): the dedup-key builder `owner ++ "/" ++ repo ++ "#" ++ number`
is injective on triples whose owner contains no `/` (as every GitHub owner
name does): two keys coincide exactly when the owner, repo and PR number
all coincide — the same entity always yields the identical key and
distinct entities never collide.  (Over arbitrary strings, an owner
containing `/` can collide with a repo containing `/`; see the
counterexample.) -/
theorem prKey_injective (o1 r1 : String) (n1 : Nat) (o2 r2 : String) (n2 : Nat)
    (h1 : '/' ∉ o1.data) (h2 : '/' ∉ o2.data) :
    prKey o1 r1 n1 = prKey o2 r2 n2 ↔ o1 = o2 ∧ r1 = r2 ∧ n1 = n2 := by
  constructor
  · intro h
    have hd := congrArg String.data h
    rw [prKey_data, prKey_data] at hd
    obtain ⟨ho, hrest⟩ := append_sep_inj '/' o1.data o2.data _ _ h1 h2 hd
    have hrev := congrArg List.reverse hrest
    simp only [List.reverse_append, List.reverse_cons, List.append_assoc,
      List.singleton_append] at hrev
    have hsharp1 : '#' ∉ (decimalRepr n1).reverse := by
      rw [List.mem_reverse]
      intro hm
      exact (decimalRepr_chars n1 '#' hm).2 rfl
    have hsharp2 : '#' ∉ (decimalRepr n2).reverse := by
      rw [List.mem_reverse]
      intro hm
      exact (decimalRepr_chars n2 '#' hm).2 rfl
    obtain ⟨hnum, hrepo⟩ := append_sep_inj '#' (decimalRepr n1).reverse
      (decimalRepr n2).reverse _ _ hsharp1 hsharp2 hrev
    refine ⟨String.ext ho, String.ext (List.reverse_injective hrepo), ?_⟩
    exact decimalRepr_inj (List.reverse_injective hnum)
  · rintro ⟨rfl, rfl, rfl⟩
    rfl

/-- Witness for C2 (amended) at concrete inputs: two keys for the same
repository but different PR numbers are distinct. -/
theorem prKey_injective_witness : prKey "octo" "hello" 1 ≠ prKey "octo" "hello" 2 := by
  intro h
  have hinj := (prKey_injective "octo" "hello" 1 "octo" "hello" 2
    (by decide) (by decide)).mp h
  exact absurd hinj.2.2 (by decide)

/-- C2 (counterexample to the claim as stated, over arbitrary strings):
the triples `("a/b", "c", 1)` and `("a", "b/c", 1)` differ but both render
to the key `"a/b/c#1"`. -/
theorem prKey_collision :
    prKey "a/b" "c" 1 = prKey "a" "b/c" 1
    ∧ ("a/b", "c", (1 : Nat)) ≠ ("a", "b/c", (1 : Nat)) := by
  constructor
  · rfl
  · decide

/-- Each PR either leaves the dedup state untouched and sends nothing, or
hands off to `notifyAndRecord` for its own dedup key. -/
theorem processPR_cases (cfg : GitHubConfig) (env : TaskEnv) (rc : RepositoryConfig)
    (st : Gate.DedupMap) (pr : PullRequest) :
    processPR cfg env rc st pr = (st, [])
    ∨ (∃ subject message,
        processPR cfg env rc st pr
          = notifyAndRecord st env.now (prKey rc.owner rc.repo pr.number) subject message
              (env.sendNotification subject message)) := by
  simp only [processPR]
  split_ifs
  · exact Or.inl rfl
  · exact Or.inl rfl
  · exact Or.inl rfl
  · exact Or.inl rfl
  · exact Or.inr ⟨_, _, rfl⟩
  · exact Or.inr ⟨_, _, rfl⟩

/-- How one PR's processing affects the dedup entry of an arbitrary key:
(a) with no successful send for that key the entry is untouched, and
(b) any entry it produced either pre-existed or is the run clock written
by a successful send for that key. -/
theorem processPR_key_effect (cfg : GitHubConfig) (env : TaskEnv) (rc : RepositoryConfig)
    (st : Gate.DedupMap) (pr : PullRequest) (key : String) :
    ((∀ s ∈ (processPR cfg env rc st pr).2, ¬(s.key = key ∧ s.ok = true)) →
      (processPR cfg env rc st pr).1 key = st key)
    ∧ (∀ t, (processPR cfg env rc st pr).1 key = some t →
        st key = some t
        ∨ (t = env.now ∧ ∃ s ∈ (processPR cfg env rc st pr).2, s.key = key ∧ s.ok = true)) := by
  rcases processPR_cases cfg env rc st pr with h | ⟨subject, message, h⟩
  · rw [h]
    exact ⟨fun _ => rfl, fun t ht => Or.inl ht⟩
  · rw [h]
    cases hok : env.sendNotification subject message with
    | false =>
      refine ⟨fun _ => by simp [notifyAndRecord], fun t ht => Or.inl ?_⟩
      simpa [notifyAndRecord] using ht
    | true =>
      have hmem : (⟨prKey rc.owner rc.repo pr.number, subject, message, true⟩ : SentNote)
          ∈ (notifyAndRecord st env.now (prKey rc.owner rc.repo pr.number) subject message
              true).2 := by
        simp [notifyAndRecord]
      have hstate : (notifyAndRecord st env.now (prKey rc.owner rc.repo pr.number) subject
          message true).1 = Gate.recordNotified st (prKey rc.owner rc.repo pr.number)
            env.now := by
        simp [notifyAndRecord]
      constructor
      · intro hno
        have hne : ¬(key = prKey rc.owner rc.repo pr.number) := by
          intro he
          exact hno ⟨prKey rc.owner rc.repo pr.number, subject, message, true⟩ hmem
            ⟨he.symm, rfl⟩
        rw [hstate]
        simp only [Gate.recordNotified]
        rw [if_neg hne]
      · intro t ht
        rw [hstate] at ht
        simp only [Gate.recordNotified] at ht
        by_cases hk : key = prKey rc.owner rc.repo pr.number
        · rw [if_pos hk] at ht
          cases ht
          exact Or.inr ⟨rfl, ⟨prKey rc.owner rc.repo pr.number, subject, message, true⟩,
            hmem, hk.symm, rfl⟩
        · rw [if_neg hk] at ht
          exact Or.inl ht

/-- One unfolding step of the PR-list loop. -/
theorem processPRList_cons (cfg : GitHubConfig) (env : TaskEnv) (rc : RepositoryConfig)
    (st : Gate.DedupMap) (pr : PullRequest) (rest : List PullRequest) :
    processPRList cfg env rc st (pr :: rest)
      = ((processPRList cfg env rc (processPR cfg env rc st pr).1 rest).1,
         (processPR cfg env rc st pr).2
           ++ (processPRList cfg env rc (processPR cfg env rc st pr).1 rest).2) := rfl

/-- `processPR_key_effect`, lifted over the PR list of one repository. -/
theorem processPRList_key_effect (cfg : GitHubConfig) (env : TaskEnv) (rc : RepositoryConfig)
    (key : String) :
    ∀ (prs : List PullRequest) (st : Gate.DedupMap),
    ((∀ s ∈ (processPRList cfg env rc st prs).2, ¬(s.key = key ∧ s.ok = true)) →
      (processPRList cfg env rc st prs).1 key = st key)
    ∧ (∀ t, (processPRList cfg env rc st prs).1 key = some t →
        st key = some t
        ∨ (t = env.now ∧ ∃ s ∈ (processPRList cfg env rc st prs).2, s.key = key ∧ s.ok = true)) := by
  intro prs
  induction prs with
  | nil => exact fun st => ⟨fun _ => rfl, fun t ht => Or.inl ht⟩
  | cons pr rest ih =>
    intro st
    rw [processPRList_cons]
    constructor
    · intro hno
      have hno2 : ∀ s ∈ (processPRList cfg env rc (processPR cfg env rc st pr).1 rest).2,
          ¬(s.key = key ∧ s.ok = true) :=
        fun s hs => hno s (List.mem_append_right _ hs)
      have hno1 : ∀ s ∈ (processPR cfg env rc st pr).2, ¬(s.key = key ∧ s.ok = true) :=
        fun s hs => hno s (List.mem_append_left _ hs)
      rw [(ih (processPR cfg env rc st pr).1).1 hno2]
      exact (processPR_key_effect cfg env rc st pr key).1 hno1
    · intro t ht
      rcases (ih (processPR cfg env rc st pr).1).2 t ht with h1 | ⟨hteq, s, hs, hk⟩
      · rcases (processPR_key_effect cfg env rc st pr key).2 t h1 with h2 | ⟨hteq, s, hs, hk⟩
        · exact Or.inl h2
        · exact Or.inr ⟨hteq, s, List.mem_append_left _ hs, hk⟩
      · exact Or.inr ⟨hteq, s, List.mem_append_right _ hs, hk⟩

/-- The per-key effect of one repository's iteration (a failed fetch
leaves the state untouched). -/
theorem processRepo_key_effect (cfg : GitHubConfig) (env : TaskEnv) (st : Gate.DedupMap)
    (rc : RepositoryConfig) (key : String) :
    ((∀ s ∈ (processRepo cfg env st rc).2, ¬(s.key = key ∧ s.ok = true)) →
      (processRepo cfg env st rc).1 key = st key)
    ∧ (∀ t, (processRepo cfg env st rc).1 key = some t →
        st key = some t
        ∨ (t = env.now ∧ ∃ s ∈ (processRepo cfg env st rc).2, s.key = key ∧ s.ok = true)) := by
  unfold processRepo
  cases env.client.getOpenPullRequests rc.owner rc.repo with
  | none => exact ⟨fun _ => rfl, fun t ht => Or.inl ht⟩
  | some prs => exact processPRList_key_effect cfg env rc key prs st

/-- One unfolding step of the repository loop. -/
theorem processRepos_cons (cfg : GitHubConfig) (env : TaskEnv) (st : Gate.DedupMap)
    (rc : RepositoryConfig) (rest : List RepositoryConfig) :
    processRepos cfg env st (rc :: rest)
      = ((processRepos cfg env (processRepo cfg env st rc).1 rest).1,
         (processRepo cfg env st rc).2
           ++ (processRepos cfg env (processRepo cfg env st rc).1 rest).2.1,
         (rc.owner, rc.repo)
           :: (processRepos cfg env (processRepo cfg env st rc).1 rest).2.2) := rfl

/-- The per-key effect of the whole repository loop. -/
theorem processRepos_key_effect (cfg : GitHubConfig) (env : TaskEnv) (key : String) :
    ∀ (rcs : List RepositoryConfig) (st : Gate.DedupMap),
    ((∀ s ∈ (processRepos cfg env st rcs).2.1, ¬(s.key = key ∧ s.ok = true)) →
      (processRepos cfg env st rcs).1 key = st key)
    ∧ (∀ t, (processRepos cfg env st rcs).1 key = some t →
        st key = some t
        ∨ (t = env.now ∧ ∃ s ∈ (processRepos cfg env st rcs).2.1, s.key = key ∧ s.ok = true)) := by
  intro rcs
  induction rcs with
  | nil => exact fun st => ⟨fun _ => rfl, fun t ht => Or.inl ht⟩
  | cons rc rest ih =>
    intro st
    rw [processRepos_cons]
    constructor
    · intro hno
      have hno2 : ∀ s ∈ (processRepos cfg env (processRepo cfg env st rc).1 rest).2.1,
          ¬(s.key = key ∧ s.ok = true) :=
        fun s hs => hno s (List.mem_append_right _ hs)
      have hno1 : ∀ s ∈ (processRepo cfg env st rc).2, ¬(s.key = key ∧ s.ok = true) :=
        fun s hs => hno s (List.mem_append_left _ hs)
      rw [(ih (processRepo cfg env st rc).1).1 hno2]
      exact (processRepo_key_effect cfg env st rc key).1 hno1
    · intro t ht
      rcases (ih (processRepo cfg env st rc).1).2 t ht with h1 | ⟨hteq, s, hs, hk⟩
      · rcases (processRepo_key_effect cfg env st rc key).2 t h1 with h2 | ⟨hteq, s, hs, hk⟩
        · exact Or.inl h2
        · exact Or.inr ⟨hteq, s, List.mem_append_left _ hs, hk⟩
      · exact Or.inr ⟨hteq, s, List.mem_append_right _ hs, hk⟩

/-- C4: the last-notified timestamp moves only on confirmed success.
For the PR task: if a run performed no successful send for a dedup key,
that key's entry is bit-for-bit what it was before the run (or gone via
the age-based sweep, never advanced) — so the next cycle faces no fresh
cooldown; and any entry present after a run either pre-existed unchanged
or was written at the run clock by a send the sink confirmed.  For the
balance task: a failed send leaves `lastNotificationTime` unchanged, and
the timestamp can only become `now` through a successful send. -/
theorem Run_gate_advances_only_on_success (cfg : GitHubConfig) (env : TaskEnv)
    (st : Gate.DedupMap) (key : String) :
    ((∀ s ∈ (Run cfg env st).sends, ¬(s.key = key ∧ s.ok = true)) →
      ((Run cfg env st).state key = st key ∨ (Run cfg env st).state key = none))
    ∧ (∀ t, (Run cfg env st).state key = some t →
        st key = some t ∨ (t = env.now ∧ ∃ s ∈ (Run cfg env st).sends, s.key = key ∧ s.ok = true))
    ∧ (∀ (threshold : ℚ) (cooldown : Int) (balanceResult : Option ℚ) (tst : Telnyx.TelnyxState),
        (Telnyx.telnyxRun threshold cooldown balanceResult false env.now tst).state.lastNotificationTime
          = tst.lastNotificationTime)
    ∧ (∀ (threshold : ℚ) (cooldown : Int) (balanceResult : Option ℚ) (send : Bool)
        (tst : Telnyx.TelnyxState) (t : Int),
        (Telnyx.telnyxRun threshold cooldown balanceResult send env.now tst).state.lastNotificationTime
            = some t →
          tst.lastNotificationTime = some t ∨ (t = env.now ∧ send = true)) := by
  refine ⟨fun hno => ?_, fun t ht => ?_, fun threshold cooldown balanceResult tst => ?_,
    fun threshold cooldown balanceResult send tst t ht => ?_⟩
  · have hrepos := (processRepos_key_effect cfg env key cfg.repositories st).1 hno
    show (Gate.cleanup (processRepos cfg env st cfg.repositories).1
      (GetNotificationCooldown cfg) env.now) key = st key ∨ _
    rcases Gate.cleanup_pointwise (processRepos cfg env st cfg.repositories).1
      (GetNotificationCooldown cfg) env.now key with hp | hp
    · exact Or.inl (hp.trans hrepos)
    · exact Or.inr hp
  · have hsome : (processRepos cfg env st cfg.repositories).1 key = some t :=
      Gate.cleanup_some_implies _ _ _ _ _ ht
    exact (processRepos_key_effect cfg env key cfg.repositories st).2 t hsome
  · rcases Telnyx.telnyxRun_lastNotification threshold cooldown balanceResult false env.now
      tst with h | ⟨_, hfalse⟩
    · exact h
    · exact absurd hfalse (by simp)
  · rcases Telnyx.telnyxRun_lastNotification threshold cooldown balanceResult send env.now
      tst with h | ⟨hnow, hsend⟩
    · exact Or.inl (h ▸ ht)
    · rw [hnow] at ht
      cases ht
      exact Or.inr ⟨rfl, hsend⟩

/-- Witness for C4 at a concrete run: one stale PR, a sink that fails
every send — the dedup entry for the PR's key is unchanged (absent before,
absent after). -/
theorem Run_gate_advances_only_on_success_witness :
    (Run exampleCfg exampleEnvFailSend (fun _ => none)).state "octo/hello#1"
        = (fun _ => (none : Option Int)) "octo/hello#1"
    ∨ (Run exampleCfg exampleEnvFailSend (fun _ => none)).state "octo/hello#1" = none :=
  (Run_gate_advances_only_on_success exampleCfg exampleEnvFailSend (fun _ => none)
    "octo/hello#1").1 (by decide)

/-- C7: once a PR has passed every filter and the gate, the send happens
whatever the CI lookups did: there is always exactly one attempted
notification for the PR's key; and when both the commit-status and the
check-suites lookups fail (nil result, non-nil error), the alert goes out
with no CI decoration in its body. -/
theorem processPR_sends_despite_ci_failure (cfg : GitHubConfig) (env : TaskEnv)
    (rc : RepositoryConfig) (st : Gate.DedupMap) (pr : PullRequest)
    (h1 : pr.draft = false)
    (h2 : rc.authors = [] ∨ rc.authors.any (fun a => equalFold pr.user.login a) = true)
    (h3 : ¬(env.now - pr.updatedAt < GetStaleDays cfg * dayNs))
    (h4 : Gate.shouldNotify st (prKey rc.owner rc.repo pr.number)
      (GetNotificationCooldown cfg) env.now = true) :
    (∃ s, (processPR cfg env rc st pr).2 = [s]
      ∧ s.key = prKey rc.owner rc.repo pr.number ∧ s.subject = "Stale PR: " ++ pr.title)
    ∧ (env.client.getCommitStatus rc.owner rc.repo pr.head.sha = (none, true) →
       env.client.getCheckSuites rc.owner rc.repo pr.head.sha = (none, true) →
        (processPR cfg env rc st pr).2
          = [⟨prKey rc.owner rc.repo pr.number, "Stale PR: " ++ pr.title, prMessage pr rc "",
              env.sendNotification ("Stale PR: " ++ pr.title) (prMessage pr rc "")⟩]) := by
  have hg : (0 < rc.authors.length
      && !(rc.authors.any fun a => equalFold pr.user.login a)) = false := by
    rcases h2 with h | h
    · rw [h]
      rfl
    · rw [h]
      simp
  constructor
  · simp only [processPR, h1, hg, if_neg h3, h4, Bool.false_eq_true, if_false,
      Bool.not_true]
    exact ⟨_, rfl, rfl, rfl⟩
  · intro hcs hck
    simp only [processPR, h1, hg, if_neg h3, h4, Bool.false_eq_true, if_false,
      Bool.not_true, hcs, hck]
    rfl

/-- Witness for C7 at a concrete input: the stale fixture PR with both CI
lookups failing produces exactly the undecorated alert. -/
theorem processPR_sends_despite_ci_failure_witness :
    (processPR exampleCfg exampleEnvFailSend ⟨"octo", "hello", []⟩ (fun _ => none) examplePR).2
      = [⟨"octo/hello#1", "Stale PR: title",
          prMessage examplePR ⟨"octo", "hello", []⟩ "", false⟩] := by
  have h := processPR_sends_despite_ci_failure exampleCfg exampleEnvFailSend
    ⟨"octo", "hello", []⟩ (fun _ => none) examplePR rfl (Or.inl rfl) (by decide) (by decide)
  exact (h.2 rfl rfl).trans (by decide)

/-- The repository loop fetches every configured repository, in order,
whatever any fetch returns. -/
theorem processRepos_fetches_all (cfg : GitHubConfig) (env : TaskEnv) :
    ∀ (rcs : List RepositoryConfig) (st : Gate.DedupMap),
      (processRepos cfg env st rcs).2.2 = rcs.map (fun rc => (rc.owner, rc.repo)) := by
  intro rcs
  induction rcs with
  | nil => exact fun _ => rfl
  | cons rc rest ih =>
    intro st
    rw [processRepos_cons, List.map_cons]
    rw [ih (processRepo cfg env st rc).1]

/-- C8: a run attempts the pull-request fetch for every configured
repository — one repository's failure never stops the iteration, and every
later repository is still fetched and evaluated (the fetch trace is
exactly the configured list, in order, for every client behaviour
including one where any or all fetches fail). -/
theorem Run_continues_past_fetch_failures (cfg : GitHubConfig) (env : TaskEnv)
    (st : Gate.DedupMap) :
    (Run cfg env st).fetched = cfg.repositories.map (fun rc => (rc.owner, rc.repo)) :=
  processRepos_fetches_all cfg env cfg.repositories st

/-- C10: `PRReviewCheckTask.Run` returns nil for every configuration,
every client behaviour and every sink behaviour (all failures are logged
and swallowed), so the scheduler's error-logging branch never fires for
this task. -/
theorem Run_always_returns_nil (cfg : GitHubConfig) (env : TaskEnv) (st : Gate.DedupMap) :
    (Run cfg env st).result = none
    ∧ SchedStop.tickLogsError (Run cfg env st).result = false :=
  ⟨rfl, rfl⟩

end PRTask

namespace SchedStop

/-- No transition terminates a running loop: while `task.task.Run()` is in
flight the loop can only keep running or finish its tick back to the
`select`; the stop rendezvous never touches it. -/
theorem step_running_preserved {s s' : StopState} (i : Nat)
    (hstep : Step s s') (hrun : s.phases[i]? = some .running) :
    s'.phases[i]? = some .running ∨ s'.phases[i]? = some .idle := by
  cases hstep with
  | tickStart j h =>
    by_cases hij : j = i
    · rw [hij, hrun] at h
      exact absurd h (by decide)
    · left
      show (s.phases.set j Phase.running)[i]? = _
      rw [List.getElem?_set_ne hij]
      exact hrun
  | tickFinish j h =>
    by_cases hij : j = i
    · right
      have hlen : j < s.phases.length := by
        rw [List.getElem?_eq_some] at h
        exact h.1
      show (s.phases.set j Phase.idle)[i]? = _
      rw [← hij, List.getElem?_set_eq_of_lt]
      exact hlen
    · left
      show (s.phases.set j Phase.idle)[i]? = _
      rw [List.getElem?_set_ne hij]
      exact hrun
  | stopSignal h =>
    by_cases hij : s.stopIdx = i
    · rw [hij, hrun] at h
      exact absurd h (by decide)
    · left
      show (s.phases.set s.stopIdx Phase.terminated)[i]? = _
      rw [List.getElem?_set_ne hij]
      exact hrun

/-- Every remaining rendezvous can complete once every remaining tick is
allowed to finish: starting at send index `k` with everything before `k`
terminated and nothing at or after `k` terminated, the system reaches the
state where every loop has terminated and `Stop` has returned. -/
theorem reach_all_terminated :
    ∀ (n : Nat) (ps : List Phase) (k : Nat), ps.length - k = n →
      (∀ j, j < k → ps[j]? = some Phase.terminated) →
      (∀ j, k ≤ j → j < ps.length → ps[j]? ≠ some Phase.terminated) →
      Relation.ReflTransGen Step ⟨ps, k⟩
        ⟨List.replicate ps.length Phase.terminated, ps.length⟩ := by
  intro n
  induction n with
  | zero =>
    intro ps k hn h1 h2
    have hk2 : k ≤ ps.length := by
      by_contra hgt
      push_neg at hgt
      have hterm := h1 ps.length (by omega)
      rw [List.getElem?_eq_none (le_refl ps.length)] at hterm
      cases hterm
    have hkeq : k = ps.length := by omega
    have hps : ps = List.replicate ps.length Phase.terminated := by
      apply List.ext_getElem?_iff.mpr
      intro j
      by_cases hj : j < ps.length
      · rw [h1 j (by omega), List.getElem?_replicate, if_pos hj]
      · rw [List.getElem?_eq_none (by omega), List.getElem?_eq_none]
        rw [List.length_replicate]
        omega
    have hstate : (⟨ps, k⟩ : StopState)
        = ⟨List.replicate ps.length Phase.terminated, ps.length⟩ := by
      rw [hkeq, ← hps]
    rw [hstate]
  | succ n ih =>
    intro ps k hn h1 h2
    have hk : k < ps.length := by omega
    obtain ⟨p, hpe⟩ : ∃ p, ps[k]? = some p := ⟨_, List.getElem?_eq_getElem hk⟩
    have hinv1 : ∀ j, j < k + 1 →
        (ps.set k Phase.terminated)[j]? = some Phase.terminated := by
      intro j hj
      by_cases hjk : j = k
      · rw [hjk, List.getElem?_set_eq_of_lt]
        exact hk
      · rw [List.getElem?_set_ne (fun he => hjk he.symm)]
        exact h1 j (by omega)
    have hinv2 : ∀ j, k + 1 ≤ j → j < (ps.set k Phase.terminated).length →
        (ps.set k Phase.terminated)[j]? ≠ some Phase.terminated := by
      intro j hj1 hj2
      rw [List.length_set] at hj2
      have hjk : k ≠ j := by omega
      rw [List.getElem?_set_ne hjk]
      exact h2 j (by omega) hj2
    have htail : Relation.ReflTransGen Step ⟨ps.set k Phase.terminated, k + 1⟩
        ⟨List.replicate ps.length Phase.terminated, ps.length⟩ := by
      have hres := ih (ps.set k Phase.terminated) (k + 1)
        (by rw [List.length_set]; omega) hinv1 hinv2
      rw [List.length_set] at hres
      exact hres
    cases p with
    | terminated => exact absurd hpe (h2 k le_rfl hk)
    | idle => exact Relation.ReflTransGen.head (Step.stopSignal ⟨ps, k⟩ hpe) htail
    | running =>
      have hstep1 : Step ⟨ps, k⟩ ⟨ps.set k Phase.idle, k⟩ :=
        Step.tickFinish ⟨ps, k⟩ k hpe
      have hpe2 : (ps.set k Phase.idle)[k]? = some Phase.idle := by
        rw [List.getElem?_set_eq_of_lt]
        exact hk
      have hstep2 : Step ⟨ps.set k Phase.idle, k⟩
          ⟨(ps.set k Phase.idle).set k Phase.terminated, k + 1⟩ :=
        Step.stopSignal ⟨ps.set k Phase.idle, k⟩ hpe2
      refine Relation.ReflTransGen.head hstep1 (Relation.ReflTransGen.head hstep2 ?_)
      rw [List.set_set]
      exact htail

/-- C9 (amended): the stop protocol is graceful but not unconditional.
(1) No transition terminates a running loop — a loop inside its tick can
only keep running or finish back to its `select`; (2) `Stop`'s send index
advances only through a rendezvous with a loop that is at its `select`;
(3) the invariant "every signalled loop has terminated" is preserved by
every step, and (4) with it, once `Stop` has returned every loop has
terminated; (5) from any start where no loop has terminated, if every
running tick is allowed to complete, the whole stop sequence can run to
completion and `Stop` returns.  What does not hold is the claim's "returns
regardless of what any task loop is doing": the rendezvous with a mid-tick
loop is not enabled, so `Stop` blocks until that tick completes (see the
counterexample). -/
theorem Stop_graceful (s s' : StopState) (i : Nat) (ps : List Phase) :
    (Step s s' → s.phases[i]? = some Phase.running →
      s'.phases[i]? = some Phase.running ∨ s'.phases[i]? = some Phase.idle)
    ∧ (Step s s' → s'.stopIdx = s.stopIdx + 1 → s.phases[s.stopIdx]? = some Phase.idle)
    ∧ (Step s s' → signalledTerminated s → signalledTerminated s')
    ∧ (signalledTerminated s → stopReturned s →
        ∀ j, j < s.phases.length → s.phases[j]? = some Phase.terminated)
    ∧ ((∀ p ∈ ps, p ≠ Phase.terminated) →
        Relation.ReflTransGen Step ⟨ps, 0⟩
          ⟨List.replicate ps.length Phase.terminated, ps.length⟩) := by
  refine ⟨fun hstep hrun => step_running_preserved i hstep hrun,
    fun hstep hadv => ?_, fun hstep hsig => ?_, fun hsig hret j hj => ?_, fun hnone => ?_⟩
  · cases hstep with
    | tickStart j h => exact absurd (show s.stopIdx = s.stopIdx + 1 from hadv) (by omega)
    | tickFinish j h => exact absurd (show s.stopIdx = s.stopIdx + 1 from hadv) (by omega)
    | stopSignal h => exact h
  · cases hstep with
    | tickStart j h =>
      intro i0 hi0
      have hterm := hsig i0 hi0
      have hji : j ≠ i0 := by
        intro he
        rw [he, hterm] at h
        exact absurd h (by decide)
      show (s.phases.set j Phase.running)[i0]? = _
      rw [List.getElem?_set_ne hji]
      exact hterm
    | tickFinish j h =>
      intro i0 hi0
      have hterm := hsig i0 hi0
      have hji : j ≠ i0 := by
        intro he
        rw [he, hterm] at h
        exact absurd h (by decide)
      show (s.phases.set j Phase.idle)[i0]? = _
      rw [List.getElem?_set_ne hji]
      exact hterm
    | stopSignal h =>
      intro i0 hi0
      show (s.phases.set s.stopIdx Phase.terminated)[i0]? = _
      by_cases hji : i0 = s.stopIdx
      · rw [hji, List.getElem?_set_eq_of_lt]
        rw [List.getElem?_eq_some] at h
        exact h.1
      · rw [List.getElem?_set_ne (fun he => hji he.symm)]
        exact hsig i0 (by
          have : i0 < s.stopIdx + 1 := hi0
          omega)
  · exact hsig j (by rw [stopReturned] at hret; omega)
  · refine reach_all_terminated ps.length ps 0 (by omega) (fun j hj => absurd hj (by omega))
      (fun j hj1 hj2 heq => ?_)
    exact hnone Phase.terminated (List.getElem?_mem heq) rfl

/-- Witness for C9 (amended) at concrete states: a running loop's tick
survives a step untouched-or-finished, and a two-task scheduler with one
idle and one running loop can complete the whole stop sequence. -/
theorem Stop_graceful_witness :
    ((⟨[Phase.idle], 0⟩ : StopState).phases[0]? = some Phase.running
      ∨ (⟨[Phase.idle], 0⟩ : StopState).phases[0]? = some Phase.idle)
    ∧ Relation.ReflTransGen Step ⟨[Phase.idle, Phase.running], 0⟩
        ⟨[Phase.terminated, Phase.terminated], 2⟩ := by
  constructor
  · exact (Stop_graceful ⟨[Phase.running], 0⟩ ⟨[Phase.idle], 0⟩ 0 []).1
      (Step.tickFinish ⟨[Phase.running], 0⟩ 0 rfl) rfl
  · exact (Stop_graceful ⟨[Phase.running], 0⟩ ⟨[Phase.idle], 0⟩ 0
      [Phase.idle, Phase.running]).2.2.2.2 (by decide)

/-- C9 (counterexample to "returns regardless of what any task loop is
doing at the time"): with a single registered task currently inside its
tick and `Stop` yet to complete its send, the rendezvous `Stop` is
blocked on is not enabled — `Stop` has not returned and cannot return
until the task's own tick completes. -/
theorem Stop_blocked_counterexample :
    stopSignalEnabled ⟨[Phase.running], 0⟩ = false
    ∧ ¬ stopReturned ⟨[Phase.running], 0⟩ := by
  constructor
  · rfl
  · intro h
    rw [stopReturned] at h
    exact absurd h (by decide)

end SchedStop

end Watchdog
